import Mathlib

/-!
Shallow embedding of the `aisched` repository (files `lsi_search.py` and
`max_flow_match.py`) used to check the claims of its specification.

Modelling conventions:
* Python dicts are association lists iterated in insertion order; updating an
  existing key keeps its position, a new key is appended at the end.
* Python exceptions are modelled with `Except Err`; each constructor of `Err`
  names the Python exception the source would raise at that point.
* Python 2 numbers are modelled exactly: `Int` for ints, `Rat` for floats
  (the float literals of the source, `0.01` and `0.02`, are exact binary-free
  decimals modelled as rationals), and `PyNum` for the int/float mix inside
  the historical matrix, where Python 2 `/` floors on two ints and is exact
  division once a float is involved.
* Loops that the source runs until a `break` are given explicit fuel; running
  out of fuel yields the artificial error `Err.fuelOut`, which corresponds to
  no behaviour of the program and only ever appears as a hypothesis-free
  impossibility in the theorems below.
-/

/-- Python exceptions (and artificial markers) used by the embedding.
`insufficientData` never occurs in the source; it is declared only so that the
specification's `InsufficientDataError` taxonomy can be stated and compared
against what the code actually raises.  `fuelOut` marks exhausted fuel. -/
inductive Err where
  | indexError
  | keyError
  | valueError
  | nameError
  | typeError
  | zeroDivisionError
  | insufficientData
  | fuelOut
deriving DecidableEq

/-- Python dict as an insertion-ordered association list. -/
abbrev Dict (α : Type) := List (String × α)

/-- Lookup of a key, first occurrence wins (Python dict lookup). -/
def dictFind? {α : Type} (d : Dict α) (k : String) : Option α :=
  match d with
  | [] => none
  | (k', v) :: t => if k' = k then some v else dictFind? t k

/-- Python `k in d`. -/
def dictContains {α : Type} (d : Dict α) (k : String) : Bool :=
  (dictFind? d k).isSome

/-- Python `d[k] = v`: update in place if the key exists, append otherwise. -/
def dictSet {α : Type} (d : Dict α) (k : String) (v : α) : Dict α :=
  match d with
  | [] => [(k, v)]
  | (k', v') :: t => if k' = k then (k, v) :: t else (k', v') :: dictSet t k v

/-- Python `d[k]` as a fallible lookup (KeyError on a missing key). -/
def dictGet {α : Type} (d : Dict α) (k : String) : Except Err α :=
  match dictFind? d k with
  | some v => .ok v
  | none => .error .keyError

/-- Python `l[j]` on a list (IndexError when out of range). -/
def listAt {α : Type} (l : List α) (j : Nat) : Except Err α :=
  match l[j]? with
  | some v => .ok v
  | none => .error .indexError

deriving instance DecidableEq for Except

/-- A Python 2 number: an int or a float (floats modelled as rationals). -/
inductive PyNum where
  | i (z : Int)
  | f (q : Rat)
deriving DecidableEq

/-- Python 2 `+` on numbers: int+int is an int, a float makes a float. -/
def PyNum.add : PyNum → PyNum → PyNum
  | .i a, .i b => .i (a + b)
  | .i a, .f q => .f (a + q)
  | .f q, .i a => .f (q + a)
  | .f p, .f q => .f (p + q)

/-- Python 2 `-` on numbers. -/
def PyNum.sub : PyNum → PyNum → PyNum
  | .i a, .i b => .i (a - b)
  | .i a, .f q => .f (a - q)
  | .f q, .i a => .f (q - a)
  | .f p, .f q => .f (p - q)

/-- Python 2 `/` by an int: floor division on an int, exact on a float,
ZeroDivisionError on a zero divisor. -/
def PyNum.divInt : PyNum → Int → Except Err PyNum
  | _, 0 => .error .zeroDivisionError
  | .i a, c => .ok (.i (Int.fdiv a c))
  | .f q, c => .ok (.f (q / (c : Rat)))

/-! ## LsiSearch (`lsi_search.py`) -/

/-- `LsiSearch.WORK_MAP`. -/
def WORK_MAP : Dict Int := [("CNA", 0), ("LPN", 1), ("ZZZ", 2)]

/-- `LsiSearch.BOOL_MAP`. -/
def BOOL_MAP : Dict Int := [("False", 0), ("True", 1)]

/-- `LsiSearch.WORK_COUNT_FACTOR` (= `.01`). -/
def WORK_COUNT_FACTOR : Rat := 1 / 100

/-- Decimal digit accumulator for `pyInt`. -/
def pyDigits : List Char → Nat → Option Nat
  | [], acc => some acc
  | c :: rest, acc =>
    if c.isDigit then pyDigits rest (acc * 10 + (c.toNat - 48)) else none

/-- Python `int(s)` on a plain decimal string, optionally signed
(ValueError when unparsable). -/
def pyInt (s : String) : Except Err Int :=
  match s.data with
  | [] => .error .valueError
  | '-' :: rest =>
    match rest, pyDigits rest 0 with
    | _ :: _, some n => .ok (-(n : Int))
    | _, _ => .error .valueError
  | l =>
    match pyDigits l 0 with
    | some n => .ok (n : Int)
    | none => .error .valueError

/-- Replace entry `j` of row `id0` of a matrix
(`schedule_list[id][4] = ...` in `read_csv`). -/
def setMatrixEntry (m : List (List PyNum)) (id0 j : Nat) (v : PyNum) :
    Except Err (List (List PyNum)) :=
  match m, id0 with
  | [], _ => .error .indexError
  | r :: rest, 0 =>
    if j < r.length then .ok ((r.set j v) :: rest) else .error .indexError
  | r :: rest, n + 1 => do
    let rest' ← setMatrixEntry rest n j v
    .ok (r :: rest')

/-- Loop body of `LsiSearch.read_csv`: walks the CSV rows with their index,
skipping the header row (index 0), deduplicating rows by the
day-shift-type-worked-employee key and weighting repeats by
`count * WORK_COUNT_FACTOR`.  State: (schedule_list, employee_ids, csv_index)
where csv_index maps the key to (id, count). -/
def read_csv_loop :
    List (List String) → Nat →
    List (List PyNum) → List String → Dict (Nat × Nat) →
    Except Err (List (List PyNum) × List String)
  | [], _, sch, ids, _ => .ok (sch, ids)
  | line :: rest, idx, sch, ids, index =>
    if idx = 0 then
      read_csv_loop rest (idx + 1) sch ids index
    else do
      let wd ← pyInt (← listAt line 0)
      let ws ← pyInt (← listAt line 1)
      let wt ← dictGet WORK_MAP (← listAt line 2)
      let wk ← dictGet BOOL_MAP (← listAt line 3)
      let emp ← listAt line 4
      let key := toString wd ++ "-" ++ toString ws ++ "-" ++ toString wt ++
                 "-" ++ toString wk ++ "-" ++ emp
      match dictFind? index key with
      | none =>
        let index' := dictSet index key (sch.length, 1)
        let ids' := ids ++ [emp]
        let sch' := sch ++ [[.i wd, .i ws, .i wt, .i wk, .f WORK_COUNT_FACTOR,
                             .i 0, .i 0, .i 0, .i 0]]
        read_csv_loop rest (idx + 1) sch' ids' index'
      | some (id0, c0) =>
        let c' := c0 + 1
        let index' := dictSet index key (id0, c')
        let sch' ← setMatrixEntry sch id0 4 (.f ((c' : Int) * WORK_COUNT_FACTOR))
        read_csv_loop rest (idx + 1) sch' ids index'

/-- `LsiSearch.read_csv`, applied to the rows the `csv.reader` yields from the
stream's remaining content. -/
def read_csv (rows : List (List String)) :
    Except Err (List (List PyNum) × List String) :=
  read_csv_loop rows 0 [] [] []

/-- Elementwise `mean_values[index] += item` over one row of the matrix
(`IndexError` would need the row to be longer than `mean_values`; extra
accumulator entries beyond the row are left unchanged). -/
def meanAdd : List PyNum → List PyNum → Except Err (List PyNum)
  | acc, [] => .ok acc
  | [], _ :: _ => .error .indexError
  | a :: as, r :: rs => do
    let tl ← meanAdd as rs
    .ok (a.add r :: tl)

/-- The inner `for j in xrange(row_width): target[i][j] -= mean[j]` loop on one
row; `means` has length `row_width`, so the row must be at least that long
(IndexError otherwise) and entries beyond `row_width` are kept unchanged. -/
def centerRow : List PyNum → List PyNum → Except Err (List PyNum)
  | row, [] => .ok row
  | [], _ :: _ => .error .indexError
  | r :: rs, m :: ms => do
    let tl ← centerRow rs ms
    .ok (r.sub m :: tl)

/-- `LsiSearch.center_matrix`: column means (Python 2 `/`, so floor division on
the integer columns), then the matrix with the means subtracted.  On an empty
matrix the very first statement `len(source_matrix[0])` raises IndexError. -/
def center_matrix (source_matrix : List (List PyNum)) :
    Except Err (List (List PyNum) × List PyNum) := do
  let row_count : Int := source_matrix.length
  let _row_width ← match source_matrix.head? with
    | none => (.error .indexError : Except Err Nat)
    | some r => .ok r.length
  let mean0 : List PyNum :=
    List.replicate (match source_matrix.head? with
                    | none => 0
                    | some r => r.length) (PyNum.i 0)
  let sums ← source_matrix.foldlM (fun acc row => meanAdd acc row) mean0
  let mean_values ← sums.mapM (fun v => v.divInt row_count)
  let target ← source_matrix.mapM (fun row => centerRow row mean_values)
  .ok (target, mean_values)

/-- The first two pipeline steps of `LsiSearch.find_in_csv` together with the
stream consumption done by `csv.reader`: reading returns the parsed table and
leaves the stream empty.  The rest of the pipeline (SVD, weights, search) is
not reached by the runs the claims below need, because the divergences they
exhibit already occur in these steps.  Result: (outcome, remaining stream). -/
def find_in_csv_front (stream : List (List String)) :
    Except Err (List (List PyNum) × List PyNum × List String) ×
    List (List String) :=
  ((do
    let (csv_list, employee_ids) ← read_csv stream
    let (centered, means) ← center_matrix csv_list
    .ok (centered, means, employee_ids)), [])

/-- Loop of `LsiSearch.get_k_limit` over the significance values: `idx` is the
`nditer` index and `last` the previous value (initially the int 0; Python's
`if last_eigenvalue:` is the nonzero test). -/
def get_k_limit_loop (kmin kmax : Nat) : List Rat → Nat → Rat → Nat
  | [], _, _ => kmax
  | cur :: rest, idx, last =>
    if kmin < idx ∧ last ≠ 0 ∧ cur * 100 < last then idx - 1
    else get_k_limit_loop kmin kmax rest (idx + 1) cur

/-- `LsiSearch.get_k_limit` (the `DROP_FACTOR` is 100; the source compares
`eigenvalues[0] * DROP_FACTOR < last_eigenvalue`). -/
def get_k_limit (sigma : List Rat) (klimit_min klimit_max : Nat) : Nat :=
  get_k_limit_loop klimit_min klimit_max sigma 0 0

/-- A `SearchResult` row of `perform_search` (named tuple of the source). -/
structure SearchResult where
  score : Rat
  index : Nat
  employee : String
  work_day : PyNum
  work_shift : PyNum
  work_type : PyNum
  worked : PyNum
  worked_count : PyNum
deriving DecidableEq

/-- Candidate-retention loop of `LsiSearch.perform_search` (the
`for idx, weight_vector in enumerate(weights)` loop).  The per-candidate
cosine score `total_score` — a floating-point computation over the projected
weights, lines 242-253 of the source — is abstracted as the input sequence
`scores`, one entry per weight vector in original order, which lets the walk,
sort and truncation logic be settled for every scored candidate sequence.
`max_score` starts at `-999999` and, exactly as in the source, is set to the
score of each *kept* candidate (`0.02` is the float literal of the source). -/
def perform_search_loop :
    List Rat → Nat → Rat → List String → List (List PyNum) →
    Except Err (List SearchResult)
  | [], _, _, _, _ => .ok []
  | sc :: rest, idx, max_score, employee_ids, csv_list =>
    if max_score - 1/50 ≤ sc then do
      let answer ← listAt employee_ids idx
      let row ← listAt csv_list idx
      let wd ← listAt row 0
      let ws ← listAt row 1
      let wt ← listAt row 2
      let wk ← listAt row 3
      let wc ← listAt row 4
      let tl ← perform_search_loop rest (idx + 1) sc employee_ids csv_list
      .ok ({ score := sc, index := idx + 2, employee := answer,
             work_day := wd, work_shift := ws, work_type := wt,
             worked := wk, worked_count := wc } :: tl)
    else
      perform_search_loop rest (idx + 1) max_score employee_ids csv_list

/-- Descending comparison used by `sorted(..., key=attrgetter("score"),
reverse=True)`; Python's sort is stable and `mergeSort` with this switch
keeps the original order of equal scores just as Python does. -/
def scoreDesc (a b : SearchResult) : Bool := b.score ≤ a.score

/-- Selection phase of `LsiSearch.perform_search` (lines 238-273): walk the
scored candidates, then `sorted(results, reverse=True)[:result_count]`. -/
def perform_search_select (scores : List Rat) (employee_ids : List String)
    (csv_list : List (List PyNum)) (result_count : Nat) :
    Except Err (List SearchResult) := do
  let results ← perform_search_loop scores 0 (-999999) employee_ids csv_list
  .ok ((results.mergeSort scoreDesc).take result_count)

/-! ## Graph and max flow (`max_flow_match.py`) -/

/-- `sys.maxint` of Python 2 on a 64-bit platform. -/
def MAXINT : Int := 9223372036854775807

/-- `Node.ID_ANONYMOUS`. -/
def ID_ANONYMOUS : String := "__IDANON__"

/-- `Graph.ID_SOURCE`. -/
def ID_SOURCE : String := "__IDSRC__"

/-- `Graph.ID_SINK`. -/
def ID_SINK : String := "__IDSNK__"

/-- A directed graph node: per-neighbour capacities (`edges`), flows and
residuals, plus the node's own id. -/
structure Node where
  edges : Dict Int
  flows : Dict Int
  residuals : Dict Int
  node_id : String
deriving DecidableEq, Inhabited

/-- `Node.__init__` for a non-empty id (ids in this development are the
non-empty shift/worker keys and the two reserved ids). -/
def Node.init (node_id : String) : Node :=
  { edges := [], flows := [], residuals := [], node_id := node_id }

/-- `Node.connect_to`: refuses the anonymous id; otherwise sets or accumulates
the edge weight, resets the edge's flow to 0 and its residual to the new
weight. -/
def Node.connect_to (self : Node) (node_id : String) (edge_weight : Int)
    (add_weight : Bool) : Node :=
  if node_id = ID_ANONYMOUS then self
  else
    let edges :=
      if !add_weight then dictSet self.edges node_id edge_weight
      else
        let e0 := if dictContains self.edges node_id then self.edges
                  else dictSet self.edges node_id 0
        dictSet e0 node_id ((dictFind? e0 node_id).getD 0 + edge_weight)
    { self with
      edges := edges
      flows := dictSet self.flows node_id 0
      residuals := dictSet self.residuals node_id
        ((dictFind? edges node_id).getD 0) }

/-- The directed graph: the node table, created with the two reserved nodes. -/
structure Graph where
  nodes : Dict Node
deriving DecidableEq

/-- `Graph.__init__`. -/
def Graph.init : Graph :=
  { nodes := [(ID_SOURCE, Node.init ID_SOURCE), (ID_SINK, Node.init ID_SINK)] }

/-- `Graph.add_node`: no-op if the id exists. -/
def Graph.add_node (self : Graph) (node_id : String) : Graph :=
  if dictContains self.nodes node_id then self
  else { nodes := dictSet self.nodes node_id (Node.init node_id) }

/-- `Graph.add_edge`: logs and skips when either endpoint is missing,
otherwise connects the source node to the sink node. -/
def Graph.add_edge (self : Graph) (source_node sink_node : String)
    (capacity : Int) (add_capacity : Bool) : Graph :=
  if !(dictContains self.nodes source_node) ∨
     !(dictContains self.nodes sink_node) then self
  else
    match dictFind? self.nodes source_node with
    | none => self
    | some s =>
      { nodes := dictSet self.nodes source_node
          (s.connect_to sink_node capacity add_capacity) }

/-- `Graph.add_leading_edge`: SOURCE → node, capacities accumulate. -/
def Graph.add_leading_edge (self : Graph) (sink_node : String)
    (capacity : Int) : Graph :=
  self.add_edge ID_SOURCE sink_node capacity true

/-- `Graph.add_trailing_edge`: node → SINK, capacity replaced. -/
def Graph.add_trailing_edge (self : Graph) (source_node : String)
    (capacity : Int) : Graph :=
  self.add_edge source_node ID_SINK capacity false

/-- State of the `depth_first_search` while-loop.  `node_list` and
`capacity_list` are Python lists used as stacks (append/pop at the end), so
they are kept head-first here; `parent_list` is only appended to and then
scanned backwards, so it is also kept in reverse (head = most recent append). -/
structure DfsSt where
  capacity : Int
  node_list : List String
  capacity_list : List Int
  parent_list : List String
  visited : List String
  target_found : Bool
deriving DecidableEq

/-- Inner `for i, edge in enumerate(residuals)` loop of one node visit: stop
at the first edge equal to the target (recording `current`, the target, and
clearing `node_list` — note that the target edge's residual is *not*
checked and its capacity is *not* taken into the bottleneck `min`); push
every other edge whose residual is positive. -/
def visitEdges (target current : String) :
    List (String × Int) → DfsSt → DfsSt
  | [], st => st
  | (edge, r) :: rest, st =>
    if edge = target then
      { st with
        parent_list := target :: current :: st.parent_list
        node_list := []
        target_found := true }
    else if 0 < r then
      visitEdges target current rest
        { st with
          node_list := edge :: st.node_list
          capacity_list := r :: st.capacity_list
          parent_list := current :: st.parent_list }
    else
      visitEdges target current rest st

/-- The `while len(node_list)` loop of `depth_first_search`: pop a node and
its capacity, shrink the running bottleneck, and visit the node's residual
edges if it has not been seen before.  Fuel bounds the iterations. -/
def dfsLoop (g : Graph) (target : String) : Nat → DfsSt → Except Err DfsSt
  | 0, _ => .error .fuelOut
  | fuel + 1, st =>
    match st.node_list, st.capacity_list with
    | [], _ => .ok st
    | _ :: _, [] => .error .indexError
    | current :: nrest, ccap :: crest =>
      let st' := { st with
        node_list := nrest
        capacity_list := crest
        capacity := min st.capacity ccap }
      if st'.visited.contains current then
        dfsLoop g target fuel st'
      else
        match dictFind? g.nodes current with
        | none => .error .keyError
        | some nd =>
          dfsLoop g target fuel
            (visitEdges target current nd.residuals
              { st' with visited := current :: st'.visited })

/-- The backwards scan that rebuilds `search_path` from `parent_list`: keep an
element when it differs from the previously scanned one (`node_last` starts as
the int 0, which differs from every string).  Because `parent_list` is stored
in reverse, the scan is a forward walk here and the final `reverse()` of the
source recovers source-to-target order. -/
def adjDedup : List String → List String
  | [] => []
  | [a] => [a]
  | a :: b :: t => if a = b then adjDedup (b :: t) else a :: adjDedup (b :: t)

/-- `Graph.depth_first_search`: `None` returns on an invalid source or target
become `typeError` here, matching `edmonds_karp`'s crash when unpacking the
`None`; otherwise run the loop from the initial stacks and rebuild the path
(the bottleneck `capacity` is whatever the pops accumulated, and is 0 with an
empty path when the target was not found). -/
def Graph.depth_first_search (self : Graph) (source_node target_node : String)
    (fuel : Nat) : Except Err (Int × List String) :=
  if !(dictContains self.nodes source_node) then .error .typeError
  else if !(dictContains self.nodes target_node) then .error .typeError
  else
    match dfsLoop self target_node fuel
      { capacity := MAXINT
        node_list := [source_node]
        capacity_list := [MAXINT]
        parent_list := []
        visited := []
        target_found := false } with
    | .error e => .error e
    | .ok st =>
      if st.target_found then
        .ok (st.capacity, (adjDedup st.parent_list).reverse)
      else
        .ok (0, [])

/-- One augmentation pass of `edmonds_karp` over consecutive pairs of the
search path: `flows[next] += flow; residuals[next] = edges[next] - flows[next]`.
A missing node or edge raises KeyError, exactly where Python would. -/
def augmentPairs (g : Graph) (flow : Int) : List String → Except Err Graph
  | [] => .ok g
  | [_] => .ok g
  | a :: b :: rest => do
    let nd ← dictGet g.nodes a
    let fl ← dictGet nd.flows b
    let cap ← dictGet nd.edges b
    let newFlow := fl + flow
    let nd' := { nd with
      flows := dictSet nd.flows b newFlow
      residuals := dictSet nd.residuals b (cap - newFlow) }
    augmentPairs { nodes := dictSet g.nodes a nd' } flow (b :: rest)

/-- The `while search_path_flow > 0` loop of `Graph.edmonds_karp`: search,
stop when the found flow is non-positive, the path is empty, or the flow is
still `sys.maxint`; otherwise augment along the path and continue.  The
returned pair `(0, none)` is the never-updated `(total_capacity, flow_graph)`
of the source. -/
def ekLoop (g : Graph) (source_node target_node : String) (dfsFuel : Nat) :
    Nat → Except Err (Graph × Int × Option Graph)
  | 0 => .error .fuelOut
  | fuel + 1 =>
    match g.depth_first_search source_node target_node dfsFuel with
    | .error e => .error e
    | .ok (search_path_flow, search_path) =>
      if search_path_flow ≤ 0 ∨ search_path = [] ∨ search_path_flow = MAXINT
      then .ok (g, 0, none)
      else
        match augmentPairs g search_path_flow search_path with
        | .error e => .error e
        | .ok g' => ekLoop g' source_node target_node dfsFuel fuel

/-- `Graph.edmonds_karp` (one fuel bound serves both loops). -/
def Graph.edmonds_karp (self : Graph) (source_node target_node : String)
    (fuel : Nat) : Except Err (Graph × Int × Option Graph) :=
  ekLoop self source_node target_node fuel fuel

/-- `Graph.max_flow` simply delegates to `edmonds_karp`. -/
def Graph.max_flow (self : Graph) (source_node target_node : String)
    (fuel : Nat) : Except Err (Graph × Int × Option Graph) :=
  self.edmonds_karp source_node target_node fuel

/-! ## MaxFlowMatch orchestrator (`max_flow_match.py`) -/

/-- `MaxFlowMatch.add_to_graph`: one shift node with an accumulating 8-hour
intake edge from SOURCE, plus an 8-hour shift→candidate edge and a 40-hour
candidate→SINK edge for every candidate (candidates are the formatted
employee ids of the scorer's results). -/
def add_to_graph (g : Graph) (shift_key : String)
    (shift_candidates : List String) : Graph :=
  let g := g.add_node shift_key
  let g := g.add_leading_edge shift_key 8
  shift_candidates.foldl
    (fun g candidate_key =>
      let g := g.add_node candidate_key
      let g := g.add_edge shift_key candidate_key 8 false
      g.add_trailing_edge candidate_key 40)
    g

/-- One printed line of the readout loop of `MaxFlowMatch.find_and_print`
(`shift: %s, employee: %s, hours: %s`); an unfilled shift prints `--?--`. -/
structure ReadLine where
  shift : String
  employee : String
  hours : Int
deriving DecidableEq

/-- First flow entry with a positive value, in iteration order
(`if flows[flow] > 0: ... break`). -/
def firstPositive : List (String × Int) → Option (String × Int)
  | [] => none
  | (k, v) :: t => if 0 < v then some (k, v) else firstPositive t

/-- The readout for one shift (body of the final loop of
`MaxFlowMatch.find_and_print`).  `flow_var` is the Python loop variable
`flow`, which survives from earlier iterations; when a positive flow is
found the line is printed and that flow is zeroed (`flows[flow] = 0`); when
none is found the source prints `flows[flow]` for the leftover `flow`
binding — a NameError when it was never bound, a KeyError when it names an
edge this shift does not have.  Returns the line, the updated graph, and the
new `flow` binding. -/
def readoutShift (g : Graph) (flow_var : Option String) (shift : String) :
    Except Err (ReadLine × Graph × Option String) := do
  let nd ← dictGet g.nodes shift
  match firstPositive nd.flows with
  | some (k, v) =>
    let nd' := { nd with flows := dictSet nd.flows k 0 }
    .ok (⟨shift, k, v⟩, { nodes := dictSet g.nodes shift nd' }, some k)
  | none =>
    let fv := match nd.flows.getLast? with
              | some (k, _) => some k
              | none => flow_var
    match fv with
    | none => .error .nameError
    | some k => do
      let v ← dictGet nd.flows k
      .ok (⟨shift, "--?--", v⟩, g, fv)

/-- The whole readout loop over the shift keys, threading the graph and the
leftover `flow` binding. -/
def readoutAll (g : Graph) (flow_var : Option String) :
    List String → Except Err (List ReadLine × Graph × Option String)
  | [] => .ok ([], g, flow_var)
  | shift :: rest => do
    let (line, g', fv') ← readoutShift g flow_var shift
    let (lines, g'', fv'') ← readoutAll g' fv' rest
    .ok (line :: lines, g'', fv'')

/-! ## Predicates and spec-side definitions used by the claims -/

/-- Total flow into `n` recorded in one flows table. -/
def flowsInto (flows : Dict Int) (n : String) : Int :=
  flows.foldr (fun kv acc => (if kv.1 = n then kv.2 else 0) + acc) 0

/-- Total flow recorded in one flows table. -/
def flowsTotal (flows : Dict Int) : Int :=
  flows.foldr (fun kv acc => kv.2 + acc) 0

/-- Sum of the flow on all edges into `n` (over every node's flows table). -/
def inFlow (g : Graph) (n : String) : Int :=
  g.nodes.foldr (fun kv acc => flowsInto kv.2.flows n + acc) 0

/-- Sum of the flow on all edges out of `n`. -/
def outFlow (g : Graph) (n : String) : Int :=
  g.nodes.foldr (fun kv acc => (if kv.1 = n then flowsTotal kv.2.flows else 0) + acc) 0

/-- Every recorded flow is zero (the state of every graph the orchestrator
builds, since `connect_to` initialises each edge's flow to 0). -/
def allFlowsZero (g : Graph) : Bool :=
  g.nodes.all (fun kv => kv.2.flows.all (fun e => e.2 = 0))

/-- The capacity-respect property of the specification: every edge's flow `f`
satisfies `0 ≤ f ≤ capacity`. -/
def capacityRespect (g : Graph) : Bool :=
  g.nodes.all (fun kv => kv.2.flows.all (fun e =>
    decide (0 ≤ e.2) && decide (e.2 ≤ (dictFind? kv.2.edges e.1).getD 0)))

/-- Candidate retention as the claim words it: walk in original order keeping
a true running maximum, keep a score exactly when it is within 0.02 of that
maximum. -/
def running_max_keep : List Rat → Rat → List Rat
  | [], _ => []
  | s :: rest, m =>
    if m - 1/50 ≤ s then s :: running_max_keep rest (max m s)
    else running_max_keep rest (max m s)

/-- The claimed selection result (scores only): running-maximum retention,
descending sort, truncation. -/
def claimed_select (scores : List Rat) (limit : Nat) : List Rat :=
  ((running_max_keep scores (-999999)).mergeSort (fun a b => b ≤ a)).take limit

/-- Candidate retention as the code actually does it: the threshold is the
score of the most recently *kept* candidate, not the running maximum. -/
def last_kept_keep : List Rat → Rat → List Rat
  | [], _ => []
  | s :: rest, m =>
    if m - 1/50 ≤ s then s :: last_kept_keep rest s
    else last_kept_keep rest m

/-- Significance value at an index (0 past the end), used to state the
index-based descriptions of `get_k_limit`. -/
def ratAt (l : List Rat) : Nat → Rat :=
  fun i =>
    match l, i with
    | [], _ => 0
    | a :: _, 0 => a
    | _ :: t, n + 1 => ratAt t n

/-- First index whose value drops below the previous value divided by 100, as
`get_k_limit` detects it: indices at most `klimit_min` are skipped and a zero
previous value suppresses the comparison. -/
def sigma_drop_idx (sigma : List Rat) (klimit_min : Nat) : Option Nat :=
  (List.range sigma.length).find? (fun i =>
    decide (klimit_min < i ∧ ratAt sigma (i - 1) ≠ 0 ∧
      ratAt sigma i * 100 < ratAt sigma (i - 1)))

/-- The corrected description of `get_k_limit`: one less than the detected
drop index (never clamped from above), `klimit_max` when no drop is
detected. -/
def get_k_limit_amended (sigma : List Rat) (klimit_min klimit_max : Nat) : Nat :=
  match sigma_drop_idx sigma klimit_min with
  | some i => i - 1
  | none => klimit_max

/-- The retained rank as the claim words it: the position of the first value
smaller than the previous value divided by 100, clamped to
`[klimit_min, klimit_max]`; `klimit_max` when no drop occurs. -/
def get_k_limit_claimed (sigma : List Rat) (klimit_min klimit_max : Nat) : Nat :=
  match (List.range sigma.length).find? (fun i =>
    decide (0 < i ∧ ratAt sigma i * 100 < ratAt sigma (i - 1))) with
  | some i => min klimit_max (max klimit_min i)
  | none => klimit_max

/-! ## Concrete inputs used by the counterexamples and witnesses -/

/-- Header row of a historical CSV. -/
def hdrRow : List String :=
  ["work_day", "work_shift", "work_type", "worked", "employee_id"]

/-- A historical stream: header plus two distinct observations. -/
def histStream : List (List String) :=
  [hdrRow, ["1", "2", "CNA", "True", "E1"], ["2", "1", "LPN", "True", "E2"]]

/-- Employee ids used with the three-candidate score sequences. -/
def ids3 : List String := ["E1", "E2", "E3"]

/-- Historical rows used with the three-candidate score sequences. -/
def csv3 : List (List PyNum) :=
  [[.i 1, .i 2, .i 0, .i 1, .f (1/100), .i 0, .i 0, .i 0, .i 0],
   [.i 2, .i 1, .i 1, .i 1, .f (1/100), .i 0, .i 0, .i 0, .i 0],
   [.i 3, .i 3, .i 0, .i 1, .f (1/100), .i 0, .i 0, .i 0, .i 0]]

/-- Scores 1, 0.99, 0.975: the third is within 0.02 of the second (the last
kept) but not of the running maximum 1. -/
def cexScores : List Rat := [1, 99/100, 39/40]

/-- Two-node network SOURCE → A (capacity 2) → SINK (capacity 1): the search
never takes the final edge's residual into the bottleneck. -/
def c2g : Graph :=
  ((Graph.init.add_node "A").add_edge ID_SOURCE "A" 2 false).add_edge
    "A" ID_SINK 1 false

/-- The converged network the solver leaves behind on `c2g`. -/
def c2solved : Graph :=
  match c2g.edmonds_karp ID_SOURCE ID_SINK 20 with
  | .ok (g, _, _) => g
  | _ => Graph.init

/-- Graph on which the search-path reconstruction fabricates the non-path
SOURCE → A → B → SINK (the edge A → B does not exist): SOURCE's edges are
inserted as B then A, so the dead branch through A and C is explored after B
is pushed, and its parents pollute `parent_list`. -/
def c9g : Graph :=
  (((((Graph.init.add_node "A").add_node "B").add_node "C").add_edge
    ID_SOURCE "B" 1 false).add_edge ID_SOURCE "A" 1 false).add_edge
    "A" "C" 1 false |>.add_edge "B" ID_SINK 1 false

/-- One shift with one candidate, as `add_to_graph` builds it. -/
def c4g : Graph := add_to_graph Graph.init "1-2-0" ["W1"]

/-- The converged network for the one-shift/one-candidate run. -/
def c4solved : Graph :=
  match c4g.edmonds_karp ID_SOURCE ID_SINK 20 with
  | .ok (g, _, _) => g
  | _ => Graph.init

/-- The graph state after the first readout pass on `c4solved`. -/
def c4after1 : Graph :=
  match readoutAll c4solved none ["1-2-0"] with
  | .ok (_, g, _) => g
  | _ => Graph.init

/-- The leftover `flow` binding after the first readout pass on `c4solved`. -/
def c4fv1 : Option String :=
  match readoutAll c4solved none ["1-2-0"] with
  | .ok (_, _, fv) => fv
  | _ => none

/-- The shift node of the converged one-shift network. -/
def c4shiftNode : Node :=
  (dictFind? c4solved.nodes "1-2-0").getD (Node.init "1-2-0")

/-- One shift whose ranked candidate list is empty: the shift node gets no
outgoing edges. -/
def c5g : Graph := add_to_graph Graph.init "1-2-0" []

/-- The converged network of the empty-candidate run (the solver finds no
augmenting path and stops at once). -/
def c5solved : Graph :=
  match c5g.edmonds_karp ID_SOURCE ID_SINK 20 with
  | .ok (g, _, _) => g
  | _ => Graph.init

/-- The selection the code produces on `cexScores` (all three candidates). -/
def c7result : List SearchResult :=
  match perform_search_select cexScores ids3 csv3 5 with
  | .ok r => r
  | .error _ => []

/-- Invariant of the search loop tying `parent_list` (stored newest-first)
to the endpoints: while nothing is recorded every stacked node is the search
source; once something is recorded the oldest record is the source; and on
success the stack is cleared and the newest record is the target. -/
def DfsInv (s t : String) (st : DfsSt) : Prop :=
  (st.parent_list = [] → ∀ x ∈ st.node_list, x = s) ∧
  (st.parent_list ≠ [] → st.parent_list.getLast? = some s) ∧
  (st.target_found = true → st.node_list = [] ∧ st.parent_list.head? = some t)

/-! ## Helper lemmas -/

/-- Successful `Except` bind splits into a successful prefix and suffix. -/
theorem except_bind_ok {ε α β : Type} (x : Except ε α) (f : α → Except ε β)
    (b : β) : (x >>= f) = .ok b ↔ ∃ a, x = .ok a ∧ f a = .ok b := by
  cases x with
  | ok a => simp [Bind.bind, Except.bind]
  | error e => simp [Bind.bind, Except.bind]

/-! ## Claim theorems -/

unseal Rat.mul Rat.inv Rat.add Rat.sub in
/-- Claim C1 (code bug): the orchestrator's per-shift Scorer queries are not
independent — they share the historical CSV stream, which the first
`find_in_csv` call consumes.  On a stream holding a header and two
observations, the first query succeeds and empties the stream, and the second
query with the same arguments reads an empty table and dies with IndexError
in `center_matrix`, so the two results differ. -/
theorem claim_C1_scorer_queries_share_stream :
    (find_in_csv_front histStream).2 = [] ∧
    (find_in_csv_front ((find_in_csv_front histStream).2)).1 =
      .error Err.indexError ∧
    (find_in_csv_front histStream).1 ≠ .error Err.indexError ∧
    (find_in_csv_front histStream).1 ≠
      (find_in_csv_front ((find_in_csv_front histStream).2)).1 := by
  refine ⟨by decide, by decide, by decide, by decide⟩

/-- Claim C2 (code bug): capacity respect fails.  On the network
SOURCE → A (capacity 2) → SINK (capacity 1) the search finds the final edge
without taking its residual into the bottleneck, the solver pushes 2 units
across the capacity-1 edge A → SINK, and the converged state has flow 2 > 1
(residual −1). -/
theorem claim_C2_capacity_violated :
    c2g.edmonds_karp ID_SOURCE ID_SINK 20 = .ok (c2solved, 0, none) ∧
    (dictFind? c2solved.nodes "A").map Node.flows = some [(ID_SINK, 2)] ∧
    (dictFind? c2solved.nodes "A").map Node.edges = some [(ID_SINK, 1)] ∧
    (dictFind? c2solved.nodes "A").map Node.residuals = some [(ID_SINK, -1)] ∧
    capacityRespect c2solved = false := by
  refine ⟨by decide, by decide, by decide, by decide, by decide⟩

/-- Claim C5 (code bug): a shift with an empty ranked candidate list gets a
node with no outgoing edges; the solve converges immediately, but the readout
then dies with a NameError (the loop variable `flow` is read without ever
being bound) instead of reporting the shift unfilled. -/
theorem claim_C5_empty_candidates_crash :
    c5g.edmonds_karp ID_SOURCE ID_SINK 20 = .ok (c5solved, 0, none) ∧
    readoutAll c5solved none ["1-2-0"] = .error Err.nameError := by
  refine ⟨by decide, by decide⟩

/-- Claim C9 (code bug): the solver does not always reach the converged
state.  On `c9g` the search-path reconstruction splices the dead branch
through A into the found branch through B, fabricating the non-path
SOURCE → A → B → SINK; augmenting it looks up the non-existent edge A → B
and the solve dies with KeyError before any convergence. -/
theorem claim_C9_solver_crashes :
    c9g.edmonds_karp ID_SOURCE ID_SINK 50 = .error Err.keyError := by
  decide

/-- Claim C4 (counterexample): re-running the readout is not idempotent.  On
the converged one-shift network the first pass reports (shift, W1, 8 hours)
and zeroes that flow; the second pass on the resulting state reports the same
shift unfilled. -/
theorem claim_C4_readout_not_idempotent :
    c4g.edmonds_karp ID_SOURCE ID_SINK 20 = .ok (c4solved, 0, none) ∧
    readoutAll c4solved none ["1-2-0"] =
      .ok ([⟨"1-2-0", "W1", 8⟩], c4after1, c4fv1) ∧
    readoutAll c4after1 c4fv1 ["1-2-0"] =
      .ok ([⟨"1-2-0", "--?--", 0⟩], c4after1, some "W1") ∧
    ([⟨"1-2-0", "W1", 8⟩] : List ReadLine) ≠ [⟨"1-2-0", "--?--", 0⟩] := by
  refine ⟨by decide, by decide, by decide, by decide⟩

unseal Rat.mul Rat.inv Rat.add Rat.sub in
/-- Claim C6 (counterexample): on an empty history (a header-only stream,
zero distinct rows) the Scorer fails with an uncaught IndexError from
`center_matrix`, not with the InsufficientData error the claim names — no
such error exists in the code. -/
theorem claim_C6_no_insufficient_data_error :
    (find_in_csv_front [hdrRow]).1 = .error Err.indexError ∧
    Err.indexError ≠ Err.insufficientData := by
  refine ⟨by decide, by decide⟩

unseal Rat.mul Rat.inv Rat.add Rat.sub List.merge List.mergeSort in
/-- Claim C7 (counterexample): the retention threshold is not the running
maximum.  On the scores 1, 0.99, 0.975 the code keeps all three (0.975 is
within 0.02 of the last kept 0.99) while the claimed running-maximum rule
drops 0.975 (it is more than 0.02 below the maximum 1). -/
theorem claim_C7_not_running_max :
    (perform_search_select cexScores ids3 csv3 5).map
      (List.map SearchResult.score) = .ok [1, 99/100, 39/40] ∧
    claimed_select cexScores 5 = [1, 99/100] ∧
    ([1, 99/100, 39/40] : List Rat) ≠ [1, 99/100] := by
  refine ⟨by decide, by decide, by decide⟩

unseal Rat.mul Rat.inv Rat.add Rat.sub in
/-- Claim C8 (counterexample): the retained rank is not clamped as claimed.
On the significance values 100, 0.000001 the drop sits at index 1, which the
claimed rule clamps into [1, 1024], while the code skips every index at most
`klimit_min` and returns `klimit_max` = 1024. -/
theorem claim_C8_not_clamped :
    get_k_limit [100, 1/1000000] 1 1024 = 1024 ∧
    get_k_limit_claimed [100, 1/1000000] 1 1024 = 1 ∧
    (1024 : Nat) ≠ 1 := by
  refine ⟨by decide, by decide, by decide⟩

/-- The `edmonds_karp` loop only ever returns the initial
`(total_capacity, flow_graph) = (0, None)` pair. -/
theorem ekLoop_ok_ret {s t : String} {dfsFuel : Nat} :
    ∀ {fuel : Nat} {g g' : Graph} {ret : Int × Option Graph},
      ekLoop g s t dfsFuel fuel = .ok (g', ret) → ret = (0, none) := by
  intro fuel
  induction fuel with
  | zero => intro g g' ret h; simp [ekLoop] at h
  | succ n ih =>
    intro g g' ret h
    rw [ekLoop] at h
    cases hdfs : g.depth_first_search s t dfsFuel with
    | error e => rw [hdfs] at h; simp at h
    | ok p =>
      rw [hdfs] at h
      obtain ⟨f, path⟩ := p
      dsimp only at h
      split at h
      · simp only [Except.ok.injEq, Prod.mk.injEq] at h
        exact h.2.symm ▸ rfl
      · cases haug : augmentPairs g f path with
        | error e => rw [haug] at h; simp at h
        | ok g1 => rw [haug] at h; exact ih h

/-- Claim C10: whatever graph, endpoints and outcome, a successful
`max_flow` returns the pair `(0, None)`; the computed flow is only observable
through the mutated flows/residuals tables of the returned graph. -/
theorem claim_C10_return_constant (g : Graph) (s t : String) (fuel : Nat)
    (g' : Graph) (ret : Int × Option Graph)
    (h : g.max_flow s t fuel = .ok (g', ret)) : ret = (0, none) :=
  @ekLoop_ok_ret s t fuel fuel g g' ret h

/-- Witness for claim C10 at the concrete network `c2g`. -/
theorem claim_C10_return_constant_witness :
    c2g.max_flow ID_SOURCE ID_SINK 20 = .ok (c2solved, 0, none) ∧
    ((0 : Int), (none : Option Graph)) = (0, none) :=
  ⟨by decide,
   claim_C10_return_constant c2g ID_SOURCE ID_SINK 20 c2solved (0, none)
     (by decide)⟩

/-- Claim C6 (amended): whenever the historical table parsed from the stream
is empty, the Scorer dies with an uncaught IndexError raised by
`center_matrix` when it indexes row 0. -/
theorem claim_C6_empty_history_index_error (rows : List (List String))
    (ids : List String) (h : read_csv rows = .ok ([], ids)) :
    (find_in_csv_front rows).1 = .error Err.indexError := by
  simp only [find_in_csv_front, h, Bind.bind, Except.bind, center_matrix,
    List.head?]

/-- Witness for the amended claim C6: a header-only stream parses to an empty
table and the Scorer fails with IndexError on it. -/
theorem claim_C6_empty_history_index_error_witness :
    read_csv [hdrRow] = .ok ([], []) ∧
    (find_in_csv_front [hdrRow]).1 = .error Err.indexError :=
  ⟨by decide, claim_C6_empty_history_index_error [hdrRow] [] (by decide)⟩

/-- A list whose `drop` at `idx` is a cons determines the element at `idx`. -/
theorem ratAt_of_drop (sigma : List Rat) :
    ∀ (idx : Nat) (cur : Rat) (rest : List Rat),
      sigma.drop idx = cur :: rest →
      ratAt sigma idx = cur ∧ sigma.drop (idx + 1) = rest := by
  induction sigma with
  | nil => intro idx cur rest h; simp at h
  | cons a t ih =>
    intro idx cur rest h
    cases idx with
    | zero =>
      simp at h
      exact ⟨h.1.symm ▸ rfl, by simp [h.2]⟩
    | succ n =>
      simp only [List.drop_succ_cons] at h
      have := ih n cur rest h
      exact ⟨this.1, by simpa using this.2⟩


/-- The `get_k_limit` loop started at `idx` computes the first detected drop
index among the remaining indices (the accumulator `last` is the value at
`idx - 1` once `idx` is positive). -/
theorem get_k_limit_loop_find (kmin kmax : Nat) (sigma : List Rat) :
    ∀ (l : List Rat) (idx : Nat) (last : Rat),
      sigma.drop idx = l →
      (0 < idx → ratAt sigma (idx - 1) = last) →
      get_k_limit_loop kmin kmax l idx last =
        (match (List.range' idx l.length).find? (fun i =>
            decide (kmin < i ∧ ratAt sigma (i - 1) ≠ 0 ∧
              ratAt sigma i * 100 < ratAt sigma (i - 1))) with
         | some i => i - 1
         | none => kmax) := by
  intro l
  induction l with
  | nil =>
    intro idx last hdrop hlast
    simp [get_k_limit_loop, List.range']
  | cons cur rest ih =>
    intro idx last hdrop hlast
    obtain ⟨hcur, hdrop2⟩ := ratAt_of_drop sigma idx cur rest hdrop
    rw [get_k_limit_loop, List.length_cons, List.range'_succ, List.find?_cons]
    by_cases hc : kmin < idx ∧ last ≠ 0 ∧ cur * 100 < last
    · have hpos : 0 < idx := Nat.lt_of_le_of_lt (Nat.zero_le kmin) hc.1
      have hp : decide (kmin < idx ∧ ratAt sigma (idx - 1) ≠ 0 ∧
          ratAt sigma idx * 100 < ratAt sigma (idx - 1)) = true := by
        rw [hlast hpos, hcur]
        exact decide_eq_true hc
      rw [if_pos hc]
      simp only [hp]
    · have hp : decide (kmin < idx ∧ ratAt sigma (idx - 1) ≠ 0 ∧
          ratAt sigma idx * 100 < ratAt sigma (idx - 1)) = false := by
        rcases Nat.eq_zero_or_pos idx with h0 | hpos
        · subst h0
          simp
        · rw [hlast hpos, hcur]
          exact decide_eq_false hc
      rw [if_neg hc]
      simp only [hp]
      exact ih (idx + 1) cur hdrop2 (fun _ => by simpa using hcur)

/-- Claim C8 (amended): the retained rank equals one less than the first
index i > klimit_min whose value times 100 drops below the previous, nonzero
value; when no such index exists — including any drop at an index at most
klimit_min or one following a zero value — it is klimit_max, with no upper
clamp applied in the drop case. -/
theorem claim_C8_drop_scan (sigma : List Rat) (kmin kmax : Nat) :
    get_k_limit sigma kmin kmax = get_k_limit_amended sigma kmin kmax := by
  unfold get_k_limit get_k_limit_amended sigma_drop_idx
  rw [List.range_eq_range']
  have h := get_k_limit_loop_find kmin kmax sigma sigma 0 0 (by simp)
    (fun h0 => absurd h0 (Nat.lt_irrefl 0))
  simpa using h

/-- A successful retention walk records exactly the scores the last-kept rule
keeps: the threshold is the score of the most recently kept candidate. -/
theorem perform_search_loop_scores :
    ∀ (scores : List Rat) (idx : Nat) (m : Rat) (ids : List String)
      (csv : List (List PyNum)) (l : List SearchResult),
      perform_search_loop scores idx m ids csv = .ok l →
      l.map SearchResult.score = last_kept_keep scores m := by
  intro scores
  induction scores with
  | nil =>
    intro idx m ids csv l h
    simp only [perform_search_loop, Except.ok.injEq] at h
    simp [← h, last_kept_keep]
  | cons sc rest ih =>
    intro idx m ids csv l h
    rw [perform_search_loop] at h
    split at h
    · simp only [except_bind_ok] at h
      obtain ⟨answer, _, row, _, wd, _, ws, _, wt, _, wk, _, wc, _, tl, htl, hok⟩ := h
      simp only [Except.ok.injEq] at hok
      subst hok
      rw [last_kept_keep, if_pos (by assumption)]
      simp only [List.map_cons]
      rw [ih _ _ _ _ _ htl]
    · rw [last_kept_keep, if_neg (by assumption)]
      exact ih _ _ _ _ _ h

/-- Claim C7 (amended): a successful selection walks the candidates in
original order keeping a candidate exactly when its score is at least the
score of the most recently kept candidate minus 0.02 (starting from
-999999, updating the threshold to each kept score), then sorts the kept
candidates by score descending (stably) and truncates to the requested
limit; in particular the result's length is at most the limit. -/
theorem claim_C7_last_kept_selection (scores : List Rat) (ids : List String)
    (csv : List (List PyNum)) (limit : Nat) (r : List SearchResult)
    (h : perform_search_select scores ids csv limit = .ok r) :
    r.length ≤ limit ∧
    r.Pairwise (fun a b => scoreDesc a b = true) ∧
    ∃ l, perform_search_loop scores 0 (-999999) ids csv = .ok l ∧
      l.map SearchResult.score = last_kept_keep scores (-999999) ∧
      r = (l.mergeSort scoreDesc).take limit := by
  rw [perform_search_select] at h
  simp only [except_bind_ok] at h
  obtain ⟨l, hl, hok⟩ := h
  simp only [Except.ok.injEq] at hok
  subst hok
  refine ⟨?_, ?_, l, hl, perform_search_loop_scores _ _ _ _ _ _ hl, rfl⟩
  · simp [List.length_take]
  · refine List.Pairwise.sublist (List.take_sublist _ _) ?_
    refine List.sorted_mergeSort ?_ ?_ l
    · intro a b c hab hbc
      simp only [scoreDesc, decide_eq_true_iff] at *
      exact le_trans hbc hab
    · intro a b
      simp only [scoreDesc]
      rcases le_total a.score b.score with hle | hle <;> simp [hle]

unseal Rat.mul Rat.inv Rat.add Rat.sub List.merge List.mergeSort in
/-- Witness for the amended claim C7 at the concrete scores 1, 0.99, 0.975. -/
theorem claim_C7_last_kept_selection_witness :
    perform_search_select cexScores ids3 csv3 5 = .ok c7result ∧
    (c7result.length ≤ 5 ∧
     c7result.Pairwise (fun a b => scoreDesc a b = true) ∧
     ∃ l, perform_search_loop cexScores 0 (-999999) ids3 csv3 = .ok l ∧
       l.map SearchResult.score = last_kept_keep cexScores (-999999) ∧
       c7result = (l.mergeSort scoreDesc).take 5) :=
  ⟨by decide,
   claim_C7_last_kept_selection cexScores ids3 csv3 5 c7result (by decide)⟩

/-- The first positive entry is an entry of the table and is positive. -/
theorem firstPositive_mem :
    ∀ (l : List (String × Int)) (k : String) (v : Int),
      firstPositive l = some (k, v) → (k, v) ∈ l ∧ 0 < v := by
  intro l
  induction l with
  | nil => intro k v h; simp [firstPositive] at h
  | cons kv t ih =>
    obtain ⟨k0, v0⟩ := kv
    intro k v h
    rw [firstPositive] at h
    split at h
    · simp only [Option.some.injEq, Prod.mk.injEq] at h
      obtain ⟨h1, h2⟩ := h
      subst h1
      subst h2
      exact ⟨List.mem_cons_self _ _, by assumption⟩
    · have := ih k v h
      exact ⟨List.mem_cons_of_mem _ this.1, this.2⟩

/-- Updating a key finds that key. -/
theorem dictFind?_dictSet_self {α : Type} (d : Dict α) (k : String) (v : α) :
    dictFind? (dictSet d k v) k = some v := by
  induction d with
  | nil => simp [dictSet, dictFind?]
  | cons kv t ih =>
    obtain ⟨k0, v0⟩ := kv
    rw [dictSet]
    split
    · simp [dictFind?]
    · rw [dictFind?]
      split
      · simp_all
      · exact ih

/-- With no duplicate keys, every entry for the updated key carries the new
value. -/
theorem dictSet_value_of_nodup {α : Type} :
    ∀ (d : Dict α) (w : String) (z v : α),
      (d.map Prod.fst).Nodup → (w, v) ∈ dictSet d w z → v = z := by
  intro d
  induction d with
  | nil =>
    intro w z v _ hm
    simp [dictSet] at hm
    exact hm
  | cons kv t ih =>
    obtain ⟨k0, v0⟩ := kv
    intro w z v hnd hm
    simp only [List.map_cons, List.nodup_cons] at hnd
    rw [dictSet] at hm
    split at hm
    · rename_i hk
      rcases List.mem_cons.1 hm with h1 | h2
      · simp only [Prod.mk.injEq] at h1
        exact h1.2
      · exfalso
        have : w ∈ t.map Prod.fst := List.mem_map.2 ⟨(w, v), h2, rfl⟩
        exact hnd.1 (hk ▸ this)
    · rename_i hk
      rcases List.mem_cons.1 hm with h1 | h2
      · exfalso
        simp only [Prod.mk.injEq] at h1
        exact hk h1.1.symm
      · exact ih w z v hnd.2 h2

/-- A successful single-shift readout either reports and zeroes the first
positive flow, or reports the shift unfilled. -/
theorem readoutShift_cases (g : Graph) (fb : Option String) (s : String)
    (line : ReadLine) (g' : Graph) (fv : Option String) (nd : Node)
    (hnode : dictFind? g.nodes s = some nd)
    (h : readoutShift g fb s = .ok (line, g', fv)) :
    (∃ k v, firstPositive nd.flows = some (k, v) ∧ line = ⟨s, k, v⟩ ∧
      g' = { nodes := dictSet g.nodes s
               { nd with flows := dictSet nd.flows k 0 } } ∧ fv = some k) ∨
    (firstPositive nd.flows = none ∧ line.employee = "--?--" ∧
      line.shift = s) := by
  rw [readoutShift] at h
  simp only [except_bind_ok] at h
  obtain ⟨nd1, hnd1, h⟩ := h
  simp only [dictGet, hnode, Except.ok.injEq] at hnd1
  subst hnd1
  cases hfp : firstPositive nd.flows with
  | some kv =>
    obtain ⟨k, v⟩ := kv
    rw [hfp] at h
    dsimp only at h
    simp only [Except.ok.injEq, Prod.mk.injEq] at h
    exact .inl ⟨k, v, rfl, h.1.symm, h.2.1.symm, h.2.2.symm⟩
  | none =>
    rw [hfp] at h
    dsimp only at h
    right
    refine ⟨rfl, ?_⟩
    split at h
    · simp at h
    · simp only [except_bind_ok] at h
      obtain ⟨v, _, h⟩ := h
      simp only [Except.ok.injEq, Prod.mk.injEq] at h
      exact ⟨by rw [← h.1], by rw [← h.1]⟩

/-- Claim C4 (amended): the readout zeroes the flow it reports, so on a
converged network a second readout pass never reproduces a filled
assignment: a shift first reported with worker `w` and positive hours is
reported unfilled or with a different worker the second time.  The flows
table needs distinct keys, which holds for every graph built through
`connect_to`. -/
theorem claim_C4_second_readout_differs
    (g : Graph) (fb : Option String) (s w : String) (hrs : Int) (nd : Node)
    (g2 : Graph) (fv : Option String)
    (line2 : ReadLine) (g3 : Graph) (fv3 : Option String)
    (hnode : dictFind? g.nodes s = some nd)
    (hnodup : (nd.flows.map Prod.fst).Nodup)
    (hw : w ≠ "--?--")
    (h1 : readoutShift g fb s = .ok (⟨s, w, hrs⟩, g2, fv))
    (h2 : readoutShift g2 fv s = .ok (line2, g3, fv3)) :
    line2 ≠ ⟨s, w, hrs⟩ := by
  rcases readoutShift_cases g fb s ⟨s, w, hrs⟩ g2 fv nd hnode h1 with
    ⟨k, v, hfp, hline, hg2, hfv⟩ | ⟨_, hemp, _⟩
  · simp only [ReadLine.mk.injEq] at hline
    obtain ⟨-, hkw, hvh⟩ := hline
    subst hkw
    subst hvh
    have hnode2 : dictFind? g2.nodes s =
        some { nd with flows := dictSet nd.flows w 0 } := by
      rw [hg2]
      exact dictFind?_dictSet_self _ _ _
    rcases readoutShift_cases g2 fv s line2 g3 fv3 _ hnode2 h2 with
      ⟨k2, v2, hfp2, hline2, -, -⟩ | ⟨-, hemp2, -⟩
    · intro hcontra
      rw [hcontra] at hline2
      simp only [ReadLine.mk.injEq] at hline2
      obtain ⟨-, hk2, hv2⟩ := hline2
      subst hk2
      subst hv2
      have hm := firstPositive_mem _ _ _ hfp2
      have hz := dictSet_value_of_nodup nd.flows w 0 hrs hnodup hm.1
      rw [hz] at hm
      exact absurd hm.2 (lt_irrefl 0)
    · intro hcontra
      rw [hcontra] at hemp2
      exact hw hemp2
  · exact absurd hemp hw

/-- Witness for the amended claim C4 on the converged one-shift network. -/
theorem claim_C4_second_readout_differs_witness :
    dictFind? c4solved.nodes "1-2-0" = some c4shiftNode ∧
    (c4shiftNode.flows.map Prod.fst).Nodup ∧
    "W1" ≠ "--?--" ∧
    readoutShift c4solved none "1-2-0" =
      .ok (⟨"1-2-0", "W1", 8⟩, c4after1, c4fv1) ∧
    readoutShift c4after1 c4fv1 "1-2-0" =
      .ok (⟨"1-2-0", "--?--", 0⟩, c4after1, some "W1") ∧
    (⟨"1-2-0", "--?--", 0⟩ : ReadLine) ≠ ⟨"1-2-0", "W1", 8⟩ :=
  ⟨by decide, by decide, by decide, by decide, by decide,
   claim_C4_second_readout_differs c4solved none "1-2-0" "W1" 8 c4shiftNode
     c4after1 c4fv1 ⟨"1-2-0", "--?--", 0⟩ c4after1 (some "W1")
     (by decide) (by decide) (by decide) (by decide) (by decide)⟩

/-- A fallible dict lookup succeeds exactly on the underlying lookup. -/
theorem dictGet_ok {α : Type} (d : Dict α) (k : String) (v : α) :
    dictGet d k = .ok v ↔ dictFind? d k = some v := by
  rw [dictGet]
  cases h : dictFind? d k <;> simp

/-- Updating an existing key shifts the keyed sum by the value difference. -/
theorem flowsInto_dictSet (n b : String) (w : Int) :
    ∀ (flows : Dict Int) (v : Int), dictFind? flows b = some v →
      flowsInto (dictSet flows b w) n =
        flowsInto flows n + (if b = n then w - v else 0) := by
  intro flows
  induction flows with
  | nil => intro v h; simp [dictFind?] at h
  | cons kv t ih =>
    obtain ⟨k0, v0⟩ := kv
    intro v h
    rw [dictFind?] at h
    rw [dictSet]
    split
    · rename_i hk
      rw [if_pos hk] at h
      simp only [Option.some.injEq] at h
      subst h
      subst hk
      simp only [flowsInto, List.foldr_cons]
      split <;> omega
    · rename_i hk
      rw [if_neg hk] at h
      simp only [flowsInto, List.foldr_cons]
      have := ih v h
      simp only [flowsInto] at this
      omega

/-- Updating an existing key shifts the total sum by the value difference. -/
theorem flowsTotal_dictSet (b : String) (w : Int) :
    ∀ (flows : Dict Int) (v : Int), dictFind? flows b = some v →
      flowsTotal (dictSet flows b w) = flowsTotal flows + (w - v) := by
  intro flows
  induction flows with
  | nil => intro v h; simp [dictFind?] at h
  | cons kv t ih =>
    obtain ⟨k0, v0⟩ := kv
    intro v h
    rw [dictFind?] at h
    rw [dictSet]
    split
    · rename_i hk
      rw [if_pos hk] at h
      simp only [Option.some.injEq] at h
      subst h
      simp only [flowsTotal, List.foldr_cons]
      omega
    · rename_i hk
      rw [if_neg hk] at h
      simp only [flowsTotal, List.foldr_cons]
      have := ih v h
      simp only [flowsTotal] at this
      omega

/-- Replacing one node's table shifts the graph-wide inbound sum by the
difference of that node's keyed sums. -/
theorem inFlow_dictSet (n a : String) (nd' : Node) :
    ∀ (l : Dict Node) (nd : Node), dictFind? l a = some nd →
      (dictSet l a nd').foldr (fun kv acc => flowsInto kv.2.flows n + acc) 0 =
        l.foldr (fun kv acc => flowsInto kv.2.flows n + acc) 0 +
          (flowsInto nd'.flows n - flowsInto nd.flows n) := by
  intro l
  induction l with
  | nil => intro nd h; simp [dictFind?] at h
  | cons kv t ih =>
    obtain ⟨k0, v0⟩ := kv
    intro nd h
    rw [dictFind?] at h
    rw [dictSet]
    split
    · rename_i hk
      rw [if_pos hk] at h
      simp only [Option.some.injEq] at h
      subst h
      simp only [List.foldr_cons]
      omega
    · rename_i hk
      rw [if_neg hk] at h
      simp only [List.foldr_cons]
      have := ih nd h
      omega

/-- Replacing one node's table shifts the graph-wide outbound sum only at
that node's key. -/
theorem outFlow_dictSet (n a : String) (nd' : Node) :
    ∀ (l : Dict Node) (nd : Node), dictFind? l a = some nd →
      (dictSet l a nd').foldr
          (fun kv acc => (if kv.1 = n then flowsTotal kv.2.flows else 0) + acc)
          0 =
        l.foldr
          (fun kv acc => (if kv.1 = n then flowsTotal kv.2.flows else 0) + acc)
          0 +
          (if a = n then flowsTotal nd'.flows - flowsTotal nd.flows else 0) := by
  intro l
  induction l with
  | nil => intro nd h; simp [dictFind?] at h
  | cons kv t ih =>
    obtain ⟨k0, v0⟩ := kv
    intro nd h
    rw [dictFind?] at h
    rw [dictSet]
    split
    · rename_i hk
      rw [if_pos hk] at h
      simp only [Option.some.injEq] at h
      subst h
      subst hk
      simp only [List.foldr_cons]
      split <;> omega
    · rename_i hk
      rw [if_neg hk] at h
      simp only [List.foldr_cons]
      have := ih nd h
      omega

/-- Each completed augmentation pass adds the pushed flow once per occurrence
of a node in the path's tail to its inbound sum, and once per occurrence in
the path without its last element to its outbound sum. -/
theorem augmentPairs_flow (f : Int) (n : String) :
    ∀ (p : List String) (g g' : Graph), augmentPairs g f p = .ok g' →
      inFlow g' n = inFlow g n + f * (p.tail.count n : Int) ∧
      outFlow g' n = outFlow g n + f * (p.dropLast.count n : Int)
  | [], g, g', h => by
    simp only [augmentPairs, Except.ok.injEq] at h
    subst h
    simp
  | [_], g, g', h => by
    simp only [augmentPairs, Except.ok.injEq] at h
    subst h
    simp
  | a :: b :: rest, g, g', h => by
    rw [augmentPairs] at h
    simp only [except_bind_ok] at h
    obtain ⟨nd, hnd, fl, hfl, cap, hcap, h⟩ := h
    rw [dictGet_ok] at hnd hfl
    have hrec := augmentPairs_flow f n (b :: rest) _ g' h
    have hin : inFlow (Graph.mk (dictSet g.nodes a
        (Node.mk nd.edges (dictSet nd.flows b (fl + f))
          (dictSet nd.residuals b (cap - (fl + f))) nd.node_id))) n =
        inFlow g n + (if b = n then f else 0) := by
      rw [inFlow, inFlow_dictSet n a _ g.nodes nd hnd]
      rw [flowsInto_dictSet n b (fl + f) nd.flows fl hfl]
      rw [inFlow]
      split <;> omega
    have hout : outFlow (Graph.mk (dictSet g.nodes a
        (Node.mk nd.edges (dictSet nd.flows b (fl + f))
          (dictSet nd.residuals b (cap - (fl + f))) nd.node_id))) n =
        outFlow g n + (if a = n then f else 0) := by
      rw [outFlow, outFlow_dictSet n a _ g.nodes nd hnd]
      rw [flowsTotal_dictSet b (fl + f) nd.flows fl hfl]
      rw [outFlow]
      split <;> omega
    constructor
    · rw [hrec.1, hin]
      simp only [List.tail_cons, List.count_cons, beq_iff_eq]
      split <;> rename_i hbn
      · subst hbn
        push_cast
        ring
      · simp [hbn]
    · rw [hrec.2, hout]
      have hdl : (a :: b :: rest).dropLast = a :: (b :: rest).dropLast := rfl
      rw [hdl]
      simp only [List.count_cons, beq_iff_eq]
      split <;> rename_i han
      · subst han
        push_cast
        ring
      · simp [han]

/-- Dropping the first element of a list whose head is not `n` keeps the
count of `n`; likewise for the last element. -/
theorem count_dropLast_of_getLast_ne (n : String) :
    ∀ (l : List String) (tg : String), l.getLast? = some tg → n ≠ tg →
      l.dropLast.count n = l.count n
  | [], tg, h, _ => by simp at h
  | [a], tg, h, hne => by
    simp only [List.getLast?_singleton, Option.some.injEq] at h
    subst h
    simp [List.count_cons, hne, List.count_nil]
  | a :: b :: t, tg, h, hne => by
    rw [List.getLast?_cons_cons] at h
    have ih := count_dropLast_of_getLast_ne n (b :: t) tg h hne
    have hdl : (a :: b :: t).dropLast = a :: (b :: t).dropLast := rfl
    rw [hdl, List.count_cons, List.count_cons, ih]

/-- For a path from `s` to `tg` and a node `n` distinct from both, the tail
and the path-without-last contain `n` equally often. -/
theorem count_tail_eq_count_dropLast (p : List String) (n s tg : String)
    (hh : p.head? = some s) (hl : p.getLast? = some tg)
    (hns : n ≠ s) (hnt : n ≠ tg) :
    p.tail.count n = p.dropLast.count n := by
  cases p with
  | nil => simp at hh
  | cons a rest =>
    simp only [List.head?_cons, Option.some.injEq] at hh
    subst hh
    rw [count_dropLast_of_getLast_ne n _ tg hl hnt]
    simp [List.count_cons, hns]

/-- The backwards-scan deduplication keeps the first element's value. -/
theorem adjDedup_head? : ∀ (l : List String), (adjDedup l).head? = l.head?
  | [] => rfl
  | [_] => rfl
  | a :: b :: t => by
    rw [adjDedup]
    split
    · rename_i hab
      rw [adjDedup_head? (b :: t)]
      simp [hab]
    · simp

/-- The deduplication of a non-empty list is non-empty. -/
theorem adjDedup_ne_nil : ∀ (l : List String), l ≠ [] → adjDedup l ≠ []
  | [], h => absurd rfl h
  | [_], _ => by simp [adjDedup]
  | _ :: _ :: t, _ => by
    rw [adjDedup]
    split
    · exact adjDedup_ne_nil _ (by simp)
    · simp

/-- The backwards-scan deduplication keeps the last element's value. -/
theorem adjDedup_getLast? :
    ∀ (l : List String), (adjDedup l).getLast? = l.getLast?
  | [] => rfl
  | [_] => rfl
  | a :: b :: t => by
    rw [adjDedup]
    split
    · rename_i hab
      rw [adjDedup_getLast? (b :: t), List.getLast?_cons_cons]
    · have h2 : (a :: adjDedup (b :: t)).getLast? =
          (adjDedup (b :: t)).getLast? := by
        cases hck : adjDedup (b :: t) with
        | nil => exact absurd hck (adjDedup_ne_nil _ (by simp))
        | cons c ct => rw [List.getLast?_cons_cons]
      rw [h2, adjDedup_getLast? (b :: t), List.getLast?_cons_cons]

/-- One node visit preserves the search invariant. -/
theorem visitEdges_inv (s t current : String) :
    ∀ (edges : List (String × Int)) (st : DfsSt),
      st.target_found = false →
      (st.parent_list = [] → current = s) →
      (st.parent_list = [] → ∀ x ∈ st.node_list, x = s) →
      (st.parent_list ≠ [] → st.parent_list.getLast? = some s) →
      DfsInv s t (visitEdges t current edges st)
  | [], st, hf, _, h3, h4 => by
    show DfsInv s t st
    exact ⟨h3, h4, fun hft => absurd hft (by simp [hf])⟩
  | (edge, r) :: rest, st, hf, h2, h3, h4 => by
    rw [visitEdges]
    split
    · refine ⟨?_, ?_, ?_⟩
      · intro _ x hx
        simp at hx
      · intro _
        show (t :: current :: st.parent_list).getLast? = some s
        cases hpl : st.parent_list with
        | nil =>
          rw [List.getLast?_cons_cons]
          simp [h2 hpl]
        | cons p pt =>
          rw [List.getLast?_cons_cons, List.getLast?_cons_cons]
          have h4' := h4 (by rw [hpl]; simp)
          rw [hpl] at h4'
          exact h4'
      · intro _
        exact ⟨rfl, rfl⟩
    · split
      · apply visitEdges_inv s t current rest
        · exact hf
        · intro hp
          simp at hp
        · intro hp
          simp at hp
        · intro _
          show (current :: st.parent_list).getLast? = some s
          cases hpl : st.parent_list with
          | nil => simp [h2 hpl]
          | cons p pt =>
            rw [List.getLast?_cons_cons]
            have h4' := h4 (by rw [hpl]; simp)
            rw [hpl] at h4'
            exact h4'
      · exact visitEdges_inv s t current rest st hf h2 h3 h4

/-- The search loop preserves the invariant. -/
theorem dfsLoop_inv (g : Graph) (s t : String) :
    ∀ (fuel : Nat) (st st' : DfsSt), DfsInv s t st →
      dfsLoop g t fuel st = .ok st' → DfsInv s t st'
  | 0, st, st', _, h => by simp [dfsLoop] at h
  | fuel + 1, st, st', hinv, h => by
    rw [dfsLoop] at h
    cases hnl : st.node_list with
    | nil =>
      rw [hnl] at h
      dsimp only at h
      simp only [Except.ok.injEq] at h
      subst h
      exact hinv
    | cons current nrest =>
      rw [hnl] at h
      cases hcl : st.capacity_list with
      | nil =>
        rw [hcl] at h
        simp at h
      | cons ccap crest =>
        rw [hcl] at h
        dsimp only at h
        have hf : st.target_found = false := by
          cases hft : st.target_found
          · rfl
          · have h3 := (hinv.2.2 hft).1
            rw [hnl] at h3
            simp at h3
        split at h
        · refine dfsLoop_inv g s t fuel _ st' ?_ h
          refine ⟨?_, hinv.2.1, ?_⟩
          · intro hp x hx
            exact hinv.1 hp x (by rw [hnl]; exact List.mem_cons_of_mem _ hx)
          · intro hft
            exact absurd hft (by simp [hf])
        · cases hfind : dictFind? g.nodes current with
          | none =>
            rw [hfind] at h
            simp at h
          | some nd =>
            rw [hfind] at h
            dsimp only at h
            refine dfsLoop_inv g s t fuel _ st' ?_ h
            apply visitEdges_inv
            · exact hf
            · intro hp
              exact hinv.1 hp current (by rw [hnl]; exact List.mem_cons_self _ _)
            · intro hp x hx
              exact hinv.1 hp x (by rw [hnl]; exact List.mem_cons_of_mem _ hx)
            · exact hinv.2.1

/-- A successful search returns either no path or a path whose first node is
the search source and whose last node is the target. -/
theorem dfs_path (g : Graph) (s t : String) (fuel : Nat) (f : Int)
    (path : List String)
    (h : g.depth_first_search s t fuel = .ok (f, path)) :
    path = [] ∨ (path.head? = some s ∧ path.getLast? = some t) := by
  rw [Graph.depth_first_search] at h
  split at h
  · simp at h
  · split at h
    · simp at h
    · cases hloop : dfsLoop g t fuel
        { capacity := MAXINT, node_list := [s], capacity_list := [MAXINT],
          parent_list := [], visited := [], target_found := false } with
      | error e =>
        rw [hloop] at h
        simp at h
      | ok st =>
        rw [hloop] at h
        dsimp only at h
        have hinv := dfsLoop_inv g s t fuel _ st
          ⟨fun _ x hx => by simpa using hx,
           fun hne => absurd rfl hne,
           fun hft => by simp at hft⟩ hloop
        split at h
        · rename_i hft
          simp only [Except.ok.injEq, Prod.mk.injEq] at h
          right
          obtain ⟨-, hpath⟩ := h
          subst hpath
          obtain ⟨hnl2, hhd⟩ := hinv.2.2 hft
          have hpl_ne : st.parent_list ≠ [] := by
            intro hc
            rw [hc] at hhd
            simp at hhd
          have hlast := hinv.2.1 hpl_ne
          constructor
          · rw [List.head?_reverse, adjDedup_getLast?, hlast]
          · rw [List.getLast?_reverse, adjDedup_head?, hhd]
        · simp only [Except.ok.injEq, Prod.mk.injEq] at h
          exact .inl h.2.symm

/-- An all-zero flows table has zero keyed and total sums. -/
theorem flows_all_zero_sums (n : String) :
    ∀ (flows : Dict Int), flows.all (fun e => e.2 = 0) = true →
      flowsInto flows n = 0 ∧ flowsTotal flows = 0 := by
  intro flows
  induction flows with
  | nil => intro _; exact ⟨rfl, rfl⟩
  | cons kv t ih =>
    intro h
    simp only [List.all_cons, Bool.and_eq_true] at h
    have hz : kv.2 = 0 := by simpa using h.1
    have ht := ih h.2
    simp only [flowsInto, flowsTotal, List.foldr_cons] at ht ⊢
    rw [hz]
    constructor
    · rw [ht.1, ite_self]
      omega
    · rw [ht.2]
      omega

/-- A node table with all-zero flows has zero inbound and outbound sums. -/
theorem node_sums_zero (n : String) :
    ∀ (l : Dict Node),
      l.all (fun kv => kv.2.flows.all (fun e => e.2 = 0)) = true →
      l.foldr (fun kv acc => flowsInto kv.2.flows n + acc) 0 = 0 ∧
      l.foldr
        (fun kv acc => (if kv.1 = n then flowsTotal kv.2.flows else 0) + acc)
        0 = 0 := by
  intro l
  induction l with
  | nil => intro _; exact ⟨rfl, rfl⟩
  | cons kv t ih =>
    intro h
    simp only [List.all_cons, Bool.and_eq_true] at h
    have hhd := flows_all_zero_sums n kv.2.flows h.1
    have ht := ih h.2
    simp only [List.foldr_cons]
    rw [hhd.1, hhd.2, ht.1, ht.2, ite_self]
    exact ⟨by omega, by omega⟩

/-- A graph with all-zero flows has zero inbound and outbound sums. -/
theorem allFlowsZero_sums (g : Graph) (h : allFlowsZero g = true) (n : String) :
    inFlow g n = 0 ∧ outFlow g n = 0 := by
  rw [allFlowsZero] at h
  rw [inFlow, outFlow]
  exact node_sums_zero n g.nodes h

/-- The solve loop preserves flow conservation at every node other than the
search endpoints. -/
theorem ekLoop_conserve (s t : String) (dfsFuel : Nat) (n : String)
    (hns : n ≠ s) (hnt : n ≠ t) :
    ∀ (fuel : Nat) (g g' : Graph) (ret : Int × Option Graph),
      ekLoop g s t dfsFuel fuel = .ok (g', ret) →
      inFlow g n = outFlow g n → inFlow g' n = outFlow g' n
  | 0, g, g', ret, h, _ => by simp [ekLoop] at h
  | fuel + 1, g, g', ret, h, hc => by
    rw [ekLoop] at h
    cases hdfs : g.depth_first_search s t dfsFuel with
    | error e =>
      rw [hdfs] at h
      simp at h
    | ok p =>
      rw [hdfs] at h
      obtain ⟨f, path⟩ := p
      dsimp only at h
      split at h
      · simp only [Except.ok.injEq, Prod.mk.injEq] at h
        rw [← h.1]
        exact hc
      · rename_i hcond
        push_neg at hcond
        cases haug : augmentPairs g f path with
        | error e =>
          rw [haug] at h
          simp at h
        | ok g1 =>
          rw [haug] at h
          refine ekLoop_conserve s t dfsFuel n hns hnt fuel g1 g' ret h ?_
          rcases dfs_path g s t dfsFuel f path hdfs with hnil | ⟨hhd, hlst⟩
          · exact absurd hnil hcond.2.1
          · have hflow := augmentPairs_flow f n path g g1 haug
            have hcount :=
              count_tail_eq_count_dropLast path n s t hhd hlst hns hnt
            rw [hflow.1, hflow.2, hcount, hc]

/-- Claim C3: after the solve converges (returns without error), every node
other than the two search endpoints has equal inbound and outbound flow,
provided the solve started from the all-zero flow state every
`connect_to`-built graph has. -/
theorem claim_C3_flow_conservation (g : Graph) (s t : String) (fuel : Nat)
    (g' : Graph) (ret : Int × Option Graph) (n : String)
    (hrun : g.edmonds_karp s t fuel = .ok (g', ret))
    (hz : allFlowsZero g = true) (hns : n ≠ s) (hnt : n ≠ t) :
    inFlow g' n = outFlow g' n := by
  have h0 := allFlowsZero_sums g hz n
  exact ekLoop_conserve s t fuel n hns hnt fuel g g' ret hrun
    (by rw [h0.1, h0.2])

/-- Witness for claim C3 on the concrete network `c2g` at node A. -/
theorem claim_C3_flow_conservation_witness :
    c2g.edmonds_karp ID_SOURCE ID_SINK 20 = .ok (c2solved, 0, none) ∧
    allFlowsZero c2g = true ∧
    ("A" : String) ≠ ID_SOURCE ∧ ("A" : String) ≠ ID_SINK ∧
    inFlow c2solved "A" = outFlow c2solved "A" :=
  ⟨by decide, by decide, by decide, by decide,
   claim_C3_flow_conservation c2g ID_SOURCE ID_SINK 20 c2solved (0, none) "A"
     (by decide) (by decide) (by decide) (by decide)⟩
